import Mathlib

/-!
# Verification of the `isaw.id` identifier allocator

A shallow embedding of `isaw/id/__init__.py` (class `Maker`): BLAKE2b
hashing over `Nat` (64-bit words represented as naturals reduced mod
`2 ^ 64`), the per-namespace registry store, the collision-extension
retry loop of `Maker.make`, lazy registry loading (`Maker._load_register`),
registration (`Maker._register`) and the teardown flush (`Maker.__del__`).
-/

namespace IsawId

/-! ## BLAKE2b over `Nat`

Faithful embedding of the unkeyed BLAKE2b hash function as used by Python's
`hashlib.blake2b(data, digest_size=n)`.  64-bit words are naturals kept
below `2 ^ 64` by explicit reduction. -/

/-- Modulus for 64-bit words. -/
def M64 : Nat := 2 ^ 64

/-- Wraparound 64-bit addition. -/
def add64 (a b : Nat) : Nat := (a + b) % M64

/-- Rotate a 64-bit word right by `n` bits (`0 < n < 64`). -/
def rotr64 (x n : Nat) : Nat := ((x >>> n) ||| (x <<< (64 - n))) % M64

/-- BLAKE2b initialization vector (fractional parts of square roots of
the first eight primes, as in the BLAKE2 RFC 7693). -/
def IV : List Nat :=
  [0x6a09e667f3bcc908, 0xbb67ae8584caa73b, 0x3c6ef372fe94f82b,
   0xa54ff53a5f1d36f1, 0x510e527fade682d1, 0x9b05688c2b3e6c1f,
   0x1f83d9abfb41bd6b, 0x5be0cd19137e2179]

/-- BLAKE2b message schedule permutations (rounds 10 and 11 reuse rows
0 and 1). -/
def SIGMA : List (List Nat) :=
  [[0, 1, 2, 3, 4, 5, 6, 7, 8, 9, 10, 11, 12, 13, 14, 15],
   [14, 10, 4, 8, 9, 15, 13, 6, 1, 12, 0, 2, 11, 7, 5, 3],
   [11, 8, 12, 0, 5, 2, 15, 13, 10, 14, 3, 6, 7, 1, 9, 4],
   [7, 9, 3, 1, 13, 12, 11, 14, 2, 6, 5, 10, 4, 0, 15, 8],
   [9, 0, 5, 7, 2, 4, 10, 15, 14, 1, 11, 12, 6, 8, 3, 13],
   [2, 12, 6, 10, 0, 11, 8, 3, 4, 13, 7, 5, 15, 14, 1, 9],
   [12, 5, 1, 15, 14, 13, 4, 10, 0, 7, 6, 3, 9, 2, 8, 11],
   [13, 11, 7, 14, 12, 1, 3, 9, 5, 0, 15, 4, 8, 6, 2, 10],
   [6, 15, 14, 9, 11, 3, 0, 8, 12, 2, 13, 7, 1, 4, 10, 5],
   [10, 2, 8, 4, 7, 6, 1, 5, 15, 11, 9, 14, 3, 12, 13, 0]]

/-- The BLAKE2b mixing function G acting on working-vector indices
`a b c d` with message words `x y`. -/
def gmix (v : List Nat) (a b c d : Nat) (x y : Nat) : List Nat :=
  let va := add64 (add64 (v.getD a 0) (v.getD b 0)) x
  let vd := rotr64 ((v.getD d 0).xor va) 32
  let vc := add64 (v.getD c 0) vd
  let vb := rotr64 ((v.getD b 0).xor vc) 24
  let va2 := add64 (add64 va vb) y
  let vd2 := rotr64 (vd.xor va2) 16
  let vc2 := add64 vc vd2
  let vb2 := rotr64 (vb.xor vc2) 63
  (((v.set a va2).set b vb2).set c vc2).set d vd2

/-- One BLAKE2b round: eight G applications driven by permutation row `s`
over message words `m`. -/
def blakeRound (m : List Nat) (v : List Nat) (s : List Nat) : List Nat :=
  let w := fun i => m.getD (s.getD i 0) 0
  let v1 := gmix v 0 4 8 12 (w 0) (w 1)
  let v2 := gmix v1 1 5 9 13 (w 2) (w 3)
  let v3 := gmix v2 2 6 10 14 (w 4) (w 5)
  let v4 := gmix v3 3 7 11 15 (w 6) (w 7)
  let v5 := gmix v4 0 5 10 15 (w 8) (w 9)
  let v6 := gmix v5 1 6 11 12 (w 10) (w 11)
  let v7 := gmix v6 2 7 8 13 (w 12) (w 13)
  gmix v7 3 4 9 14 (w 14) (w 15)

/-- Decode 8 bytes (little-endian) into a 64-bit word. -/
def bytesToWordLE (bs : List Nat) : Nat :=
  bs.foldr (fun b acc => acc * 256 + b) 0

/-- The sixteen 64-bit message words of a (zero-padded) 128-byte block. -/
def blockWords (b : List Nat) : List Nat :=
  let padded := b ++ List.replicate (128 - b.length) 0
  (List.range 16).map fun i => bytesToWordLE ((padded.drop (8 * i)).take 8)

/-- The BLAKE2b compression function F: state `h`, raw block bytes `b`
(padded internally), byte counter `t`, finalization flag `f`. -/
def compress (h : List Nat) (b : List Nat) (t : Nat) (f : Bool) : List Nat :=
  let m := blockWords b
  let v0 := h ++ IV
  let v1 := v0.set 12 ((v0.getD 12 0).xor (t % M64))
  let v2 := v1.set 13 ((v1.getD 13 0).xor (t / M64 % M64))
  let v3 := if f then v2.set 14 ((v2.getD 14 0).xor (M64 - 1)) else v2
  let vfin := (List.range 12).foldl (fun v i => blakeRound m v (SIGMA.getD (i % 10) [])) v3
  (List.range 8).map fun i => ((h.getD i 0).xor (vfin.getD i 0)).xor (vfin.getD (i + 8) 0)

/-- Split the input bytes into 128-byte blocks (fuel-driven structural
recursion; `fuel = l.length` always suffices). -/
def toBlocksAux (fuel : Nat) (l : List Nat) : List (List Nat) :=
  match fuel with
  | 0 => [l]
  | fuel + 1 =>
    if l.length ≤ 128 then [l]
    else l.take 128 :: toBlocksAux fuel (l.drop 128)

/-- Split the input bytes into 128-byte blocks; an input of at most 128
bytes (in particular the empty input) is a single block, zero-padded by
the compression function. -/
def toBlocks (l : List Nat) : List (List Nat) :=
  toBlocksAux l.length l

/-- Sequentially compress the blocks; all but the last use a full-block
counter and `f = false`, the last uses the total length and `f = true`. -/
def compressBlocks (h : List Nat) (blocks : List (List Nat)) (done : Nat) : List Nat :=
  match blocks with
  | [] => h
  | [b] => compress h b (done + b.length) true
  | b :: rest => compressBlocks (compress h b (done + 128) false) rest (done + 128)

/-- Unkeyed BLAKE2b of `input` producing `nn` bytes
(`hashlib.blake2b(input, digest_size=nn)`). -/
def blake2b (input : List Nat) (nn : Nat) : List Nat :=
  let h0 := IV.set 0 ((IV.getD 0 0).xor (0x01010000 + nn))
  let h := compressBlocks h0 (toBlocks input) 0
  ((h.map fun w =>
      [w % 256, w / 256 % 256, w / 256 ^ 2 % 256, w / 256 ^ 3 % 256,
       w / 256 ^ 4 % 256, w / 256 ^ 5 % 256, w / 256 ^ 6 % 256,
       w / 256 ^ 7 % 256]).flatten).take nn

/-- Lowercase hex character for a value below 16. -/
def hexChar (n : Nat) : Char :=
  if n < 10 then Char.ofNat (48 + n) else Char.ofNat (87 + n)

/-- Lowercase hexadecimal rendering of a byte list
(Python `hash.hexdigest()`). -/
def bytesToHex (bs : List Nat) : String :=
  ⟨(bs.map fun b => [hexChar (b / 16), hexChar (b % 16)]).flatten⟩

/-- Hex digest of the hash: `blake2b(data, digest_size=length).hexdigest()`. -/
def blake2bHex (data : List Nat) (length : Nat) : String :=
  bytesToHex (blake2b data length)

/-! ## Byte encodings

`Maker.make` turns the timestamp into ASCII bytes
(`bytes(date_time.isoformat(), encoding='ascii')`) and string content into
UTF-8 bytes (`content.encode('utf-8')`). -/

/-- UTF-8 encoding of a single character. -/
def utf8EncodeChar (c : Char) : List Nat :=
  let n := c.toNat
  if n < 0x80 then [n]
  else if n < 0x800 then
    [0xC0 ||| (n >>> 6), 0x80 ||| (n &&& 0x3F)]
  else if n < 0x10000 then
    [0xE0 ||| (n >>> 12), 0x80 ||| ((n >>> 6) &&& 0x3F), 0x80 ||| (n &&& 0x3F)]
  else
    [0xF0 ||| (n >>> 18), 0x80 ||| ((n >>> 12) &&& 0x3F),
     0x80 ||| ((n >>> 6) &&& 0x3F), 0x80 ||| (n &&& 0x3F)]

/-- Python `s.encode('utf-8')`. -/
def utf8Encode (s : String) : List Nat :=
  (s.data.map utf8EncodeChar).flatten

/-- Python `bytes(s, encoding='ascii')`: the timestamp strings produced by
`datetime.isoformat()` are pure ASCII, where the ASCII code is the
character's code point. -/
def asciiBytes (s : String) : List Nat :=
  s.data.map Char.toNat

/-- The hash input of `Maker.make` for string content:
`stamp + content` with the ISO timestamp bytes first. -/
def hashInput (stamp content : String) : List Nat :=
  asciiBytes stamp ++ utf8Encode content

/-! ## Registry file parsing and writing

`Maker._load_register` does `set(f.read().splitlines())`;
`Maker.__del__` writes back `'\n'.join(list(v))`.  The file is opened in
text mode, so line boundaries in the read content are normalized to
`'\n'`. -/

/-- Split a character list at every `'\n'`, keeping all fragments
(including empty ones); the result is always nonempty. -/
def splitNL : List Char → List (List Char)
  | [] => [[]]
  | c :: cs =>
    if c = '\n' then [] :: splitNL cs
    else
      match splitNL cs with
      | [] => [[c]]
      | l :: ls => (c :: l) :: ls

/-- Python `str.splitlines()` on newline-normalized text: all fragments
between `'\n'` boundaries, except that the final empty fragment arising
from a trailing newline (or from empty input) is dropped. -/
def pySplitlines (s : String) : List String :=
  let parts := (splitNL s.data).map List.asString
  if parts.getLast? = some "" then parts.dropLast else parts

/-- Python `'\n'.join(l)`. -/
def joinNL : List String → String
  | [] => ""
  | [x] => x
  | x :: xs => x ++ "\n" ++ joinNL xs

/-! ## The Maker state and operations -/

/-- A `MakeError` models the exceptions `Maker.make` can raise:
the `IOError` from `_load_register` when a namespace's backing file
cannot be opened, and the `ValueError` raised when `MAX_TRIES`
collision-extension attempts are exhausted. -/
inductive MakeError where
  | registryLoad (ns : String)
  | exhaustedRetries (tries : Nat)
  deriving DecidableEq, Repr

deriving instance DecidableEq for Except

def DEFAULT_ID_LENGTH : Nat := 3
def DEFAULT_NAMESPACE : String := ""
def MAX_TRIES : Nat := 10

/-- The state of a `Maker` instance together with the registry directory
it reads from.  `fs` maps a namespace name to the content of its backing
file (`registry_path/ns`), when that file exists.  `registry` is the
in-memory cache `self.registry` (namespace to set of digests, represented
as a duplicate-free list), `dirty` is `self.dirty`. -/
structure MakerState where
  ensure : Bool
  namespaceDefault : String
  idLength : Nat
  fs : List (String × String)
  registry : List (String × List String)
  dirty : List (String × Bool)
  deriving DecidableEq, Repr

/-- Lazy registry load `Maker._load_register(ns)`: return the cached set if present;
otherwise read the backing file, split into lines, cache and return —
or fail when no backing file exists for `ns`.  On failure the state is
unchanged (the exception is raised before `self.registry` is touched). -/
def loadRegister (st : MakerState) (ns : String) :
    Except MakeError (List String × MakerState) :=
  match st.registry.lookup ns with
  | some r => .ok (r, st)
  | none =>
    match st.fs.lookup ns with
    | none => .error (.registryLoad ns)
    | some txt =>
      let r := (pySplitlines txt).dedup
      .ok (r, { st with registry := (ns, r) :: st.registry })

/-- Membership test `Maker._unique(ns, digest)` given the loaded register `r`. -/
def uniqueIn (r : List String) (digest : String) : Bool :=
  decide (digest ∉ r)

/-- Registration `Maker._register(ns, digest)`: add the digest to the namespace's
cached set (`set.add`: a no-op when already present) and mark the
namespace dirty. -/
def registerDigest (st : MakerState) (ns : String) (digest : String) :
    MakerState :=
  { st with
    registry := st.registry.map fun p =>
      if p.1 = ns then (p.1, if digest ∈ p.2 then p.2 else p.2 ++ [digest])
      else p
    dirty := (ns, true) :: st.dirty }

/-- The collision-extension loop of `Maker.make`: while the digest is in
the register, fail once `tries` reaches `MAX_TRIES`, otherwise extend the
digest length by one byte, recompute, and retry.  The loop is driven by
structural fuel; `fuel = MAX_TRIES + 1 - tries` always suffices, making
the `fuel = 0` fallback unreachable from `findUnique`. -/
def findUniqueAux (r : List String) (data : List Nat) (fuel : Nat)
    (length : Nat) (digest : String) (tries : Nat) :
    Except MakeError String :=
  if digest ∈ r then
    if tries ≥ MAX_TRIES then .error (.exhaustedRetries tries)
    else
      match fuel with
      | 0 => .error (.exhaustedRetries tries)
      | fuel + 1 =>
        findUniqueAux r data fuel (length + 1)
          (blake2bHex data (length + 1)) (tries + 1)
  else .ok digest

/-- The collision-extension loop entered as in `Maker.make`:
`tries` starts at 0. -/
def findUnique (r : List String) (data : List Nat) (length : Nat)
    (digest : String) (tries : Nat) : Except MakeError String :=
  findUniqueAux r data (MAX_TRIES + 1 - tries) length digest tries

/-- Identifier formatting: `'/{ns}/{digest}'` for a nonempty namespace,
else `'/{digest}'`. -/
def formatId (ns digest : String) : String :=
  if ns ≠ "" then "/" ++ ns ++ "/" ++ digest else "/" ++ digest

/-- The allocator entry point `Maker.make(content, namespace, date_time, id_length)` for string
content.  The timestamp is passed as its ISO-format string.  Returns the
produced identifier (or the raised error) together with the state of the
instance after the call. -/
def make (st : MakerState) (content : String) (nsArg : Option String)
    (stamp : String) (idLengthArg : Option Nat) :
    Except MakeError String × MakerState :=
  let data := hashInput stamp content
  let length := idLengthArg.getD st.idLength
  let digest := blake2bHex data length
  let ns := nsArg.getD st.namespaceDefault
  if st.ensure then
    match loadRegister st ns with
    | .error e => (.error e, st)
    | .ok (r, st1) =>
      match findUnique r data length digest 0 with
      | .error e => (.error e, st1)
      | .ok digest2 => (.ok (formatId ns digest2), registerDigest st1 ns digest2)
  else
    (.ok (formatId ns digest), st)

/-- One iteration of the flush loop of `Maker.__del__` over a cached
namespace `p = (ns, set)`: when the namespace's dirty flag is set, record
a backup `(ns, prior file content)` (the `copy2` to
`'{path}.{stamp}.bak'`) and overwrite the backing file with the
newline-joined in-memory set; namespaces whose dirty flag is absent
(`KeyError`) or false are skipped. -/
def teardownStep (st : MakerState)
    (acc : List (String × String) × List (String × String))
    (p : String × List String) :
    List (String × String) × List (String × String) :=
  match st.dirty.lookup p.1 with
  | some true =>
    (acc.1.map fun q => if q.1 = p.1 then (q.1, joinNL p.2) else q,
     acc.2 ++ [(p.1, (acc.1.lookup p.1).getD "")])
  | _ => acc

/-- Teardown `Maker.__del__`: when the instance enforces uniqueness,
flush every cached namespace through `teardownStep`.  Returns the
resulting file map and the list of backups `(namespace, prior content)`
written.  (The scratch `tmp` snapshot directory handled by `copy2` and
`rmtree` is outside the per-namespace file map modelled here.) -/
def teardown (st : MakerState) :
    List (String × String) × List (String × String) :=
  if st.ensure then st.registry.foldl (teardownStep st) (st.fs, [])
  else (st.fs, [])

/-! ## Sessions

A session is a sequence of `make` calls against one enforcing instance;
`runSession` returns the final state together with the list of
`(resolved namespace, identifier)` pairs issued by the successful
calls. -/

/-- Arguments of one `Maker.make` call. -/
structure MakeCall where
  content : String
  nsArg : Option String
  stamp : String
  idLen : Option Nat
  deriving DecidableEq, Repr

/-- The `(resolved namespace, identifier)` pairs issued by one call
(one pair when the call succeeds, none when it raises). -/
def issueOf (st : MakerState) (c : MakeCall) : List (String × String) :=
  match (make st c.content c.nsArg c.stamp c.idLen).1 with
  | .ok s => [(c.nsArg.getD st.namespaceDefault, s)]
  | .error _ => []

/-- Run a list of `make` calls, threading the instance state and
collecting the issued identifiers in call order. -/
def runSession : MakerState → List MakeCall → MakerState × List (String × String)
  | st, [] => (st, [])
  | st, c :: cs =>
    let st2 := (make st c.content c.nsArg c.stamp c.idLen).2
    let rest := runSession st2 cs
    (rest.1, issueOf st c ++ rest.2)

/-- The registry invariant of an enforcing session: every digest in a
cached namespace's set is either a line of the namespace's backing file
or was issued (as part of a returned identifier) during the session, and
namespaces that were never cached have issued nothing. -/
def RegInv (fs : List (String × String))
    (issued : List (String × String)) (st : MakerState) : Prop :=
  (∀ ns r, st.registry.lookup ns = some r →
    ∃ txt, fs.lookup ns = some txt ∧
      ∀ d, d ∈ r ↔ d ∈ pySplitlines txt ∨ (ns, formatId ns d) ∈ issued) ∧
  (∀ ns, st.registry.lookup ns = none → ∀ s, (ns, s) ∉ issued)

/-- The `date_time` parameter's default: the Python signature line
`date_time=datetime.now()` evaluates `datetime.now()` once, when the
class body is executed, so every call that omits `date_time` receives
the same frozen stamp `defStamp`; the wall-clock time `nowAtCall` at the
moment of the call is never consulted by the code. -/
def makeOmittingTimestamp (defStamp : String) (st : MakerState)
    (content : String) (nsArg : Option String) (_nowAtCall : String)
    (idLengthArg : Option Nat) : Except MakeError String × MakerState :=
  make st content nsArg defStamp idLengthArg

end IsawId

namespace IsawId

set_option maxRecDepth 1000000
set_option maxHeartbeats 4000000

/-! ## Concrete states and inputs used by the claims -/

/-- The timestamp `WHEN = datetime(2017, 10, 21, 6, 47, 18, 153304)` of
the test suite, in ISO format. -/
def WHEN : String := "2017-10-21T06:47:18.153304"

/-- A `Maker(ensure_unique=False)` instance with all defaults. -/
def makerDisabled : MakerState :=
  { ensure := false, namespaceDefault := DEFAULT_NAMESPACE,
    idLength := DEFAULT_ID_LENGTH, fs := [], registry := [], dirty := [] }

/-- An enforcing `Maker` whose registry directory holds a `temptest`
file pre-seeded with the colliding 3-byte digest of
`(content='foo', timestamp=WHEN)`. -/
def makerTemptest : MakerState :=
  { ensure := true, namespaceDefault := DEFAULT_NAMESPACE,
    idLength := DEFAULT_ID_LENGTH, fs := [("temptest", "46ee55")],
    registry := [], dirty := [] }

/-- The eleven digests of `(content='foo', timestamp=WHEN)` at byte
lengths 3 through 13: the initial digest and all `MAX_TRIES` length
extensions. -/
def collisionSet : List String :=
  ["46ee55", "ee950528", "07dd67b591", "0ce00753f94e", "2bf3d4472311bc",
   "be633e7683ad5fb4", "012669e4ed2c59d659", "89886ba96f2dc5a6ce60",
   "17113eba3c2cccc72b04c3", "179104a08e91ef2b76e52a03",
   "58e228922c142c0a007ac5809b"]

/-- An enforcing `Maker` whose cached namespace `full` already contains
every digest the collision loop can try for
`(content='foo', timestamp=WHEN)`. -/
def makerExhaust : MakerState :=
  { ensure := true, namespaceDefault := DEFAULT_NAMESPACE,
    idLength := DEFAULT_ID_LENGTH, fs := [],
    registry := [("full", collisionSet)], dirty := [] }

/-- An enforcing `Maker` whose namespace `n` file holds a line `a`,
a blank line, and a trailing newline. -/
def makerBlankLine : MakerState :=
  { ensure := true, namespaceDefault := DEFAULT_NAMESPACE,
    idLength := DEFAULT_ID_LENGTH, fs := [("n", "a\n\n")],
    registry := [], dirty := [] }

/-- An enforcing `Maker` that has loaded namespaces `a` and `b` and
registered a digest only into `b`. -/
def makerClean : MakerState :=
  { ensure := true, namespaceDefault := DEFAULT_NAMESPACE,
    idLength := DEFAULT_ID_LENGTH, fs := [("a", "x"), ("b", "y")],
    registry := [("a", ["x"]), ("b", ["y", "z"])], dirty := [("b", true)] }

/-! ## Helper lemmas -/

/-- Facts about a successful registry load: the namespace is cached with
the returned set and every other component of the state is unchanged. -/
lemma loadRegister_ok {st : MakerState} {ns : String} {r : List String}
    {st' : MakerState} (h : loadRegister st ns = .ok (r, st')) :
    st'.registry.lookup ns = some r ∧ st'.dirty = st.dirty ∧
    st'.fs = st.fs ∧ st'.ensure = st.ensure ∧
    st'.namespaceDefault = st.namespaceDefault ∧
    st'.idLength = st.idLength := by
  unfold loadRegister at h
  cases hc : st.registry.lookup ns with
  | some r0 =>
    rw [hc] at h
    simp only [Except.ok.injEq, Prod.mk.injEq] at h
    obtain ⟨rfl, rfl⟩ := h
    exact ⟨hc, rfl, rfl, rfl, rfl, rfl⟩
  | none =>
    rw [hc] at h
    cases hf : st.fs.lookup ns with
    | none => rw [hf] at h; simp at h
    | some txt =>
      rw [hf] at h
      simp only [Except.ok.injEq, Prod.mk.injEq] at h
      obtain ⟨rfl, rfl⟩ := h
      simp [List.lookup]

/-- Case analysis of a successful registry load: either the namespace was
already cached (state unchanged), or it is freshly read from the backing
file. -/
lemma loadRegister_cases {st : MakerState} {ns : String} {r : List String}
    {st' : MakerState} (h : loadRegister st ns = .ok (r, st')) :
    (st.registry.lookup ns = some r ∧ st' = st) ∨
    (st.registry.lookup ns = none ∧
      ∃ txt, st.fs.lookup ns = some txt ∧ r = (pySplitlines txt).dedup ∧
        st' = { st with registry := (ns, r) :: st.registry }) := by
  unfold loadRegister at h
  cases hc : st.registry.lookup ns with
  | some r0 =>
    rw [hc] at h
    simp only [Except.ok.injEq, Prod.mk.injEq] at h
    obtain ⟨rfl, rfl⟩ := h
    exact .inl ⟨rfl, rfl⟩
  | none =>
    rw [hc] at h
    cases hf : st.fs.lookup ns with
    | none => rw [hf] at h; simp at h
    | some txt =>
      rw [hf] at h
      simp only [Except.ok.injEq, Prod.mk.injEq] at h
      obtain ⟨rfl, rfl⟩ := h
      exact .inr ⟨rfl, txt, rfl, rfl, rfl⟩

/-- The collision loop only returns a digest that is not in the
register. -/
lemma findUniqueAux_ok_not_mem {r : List String} {data : List Nat} :
    ∀ {fuel length : Nat} {digest : String} {tries : Nat} {d : String},
    findUniqueAux r data fuel length digest tries = .ok d → d ∉ r := by
  intro fuel
  induction fuel with
  | zero =>
    intro length digest tries d h
    rw [findUniqueAux.eq_def] at h
    by_cases hm : digest ∈ r
    · simp only [if_pos hm] at h
      split at h <;> simp at h
    · simp only [if_neg hm] at h
      obtain rfl : digest = d := by simpa using h
      exact hm
  | succ fuel ih =>
    intro length digest tries d h
    rw [findUniqueAux.eq_def] at h
    by_cases hm : digest ∈ r
    · simp only [if_pos hm] at h
      split at h
      · simp at h
      · exact ih h
    · simp only [if_neg hm] at h
      obtain rfl : digest = d := by simpa using h
      exact hm

/-- If the register contains the digest at every length the loop can
reach, the loop fails after `MAX_TRIES` extension attempts. -/
lemma findUniqueAux_exhausts {r : List String} {data : List Nat} :
    ∀ (fuel tries length : Nat) (digest : String),
    fuel + tries = MAX_TRIES + 1 → tries ≤ MAX_TRIES → digest ∈ r →
    (∀ k, 1 ≤ k → k < fuel → blake2bHex data (length + k) ∈ r) →
    findUniqueAux r data fuel length digest tries =
      .error (.exhaustedRetries MAX_TRIES) := by
  intro fuel
  induction fuel with
  | zero =>
    intro tries length digest hsum hle _ _
    omega
  | succ fuel ih =>
    intro tries length digest hsum hle hmem H
    rw [findUniqueAux.eq_def]
    simp only [if_pos hmem]
    by_cases htop : tries ≥ MAX_TRIES
    · have : tries = MAX_TRIES := Nat.le_antisymm hle htop
      subst this
      simp
    · simp only [if_neg htop]
      have hfuel : 1 ≤ fuel := by omega
      refine ih (tries + 1) (length + 1) (blake2bHex data (length + 1))
        (by omega) (by omega) (H 1 (by omega) (by omega)) ?_
      intro k hk1 hk2
      have := H (k + 1) (by omega) (by omega)
      rwa [show length + (k + 1) = length + 1 + k by omega] at this

/-- Unfolded form of `make` for an enforcing instance. -/
lemma make_ensure_eq (st : MakerState) (content : String)
    (nsArg : Option String) (stamp : String) (idLen : Option Nat)
    (h1 : st.ensure = true) :
    make st content nsArg stamp idLen =
      (match loadRegister st (nsArg.getD st.namespaceDefault) with
       | .error e => (.error e, st)
       | .ok (r, st1) =>
         match findUnique r (hashInput stamp content)
             (idLen.getD st.idLength)
             (blake2bHex (hashInput stamp content) (idLen.getD st.idLength))
             0 with
         | .error e => (.error e, st1)
         | .ok d2 =>
           (.ok (formatId (nsArg.getD st.namespaceDefault) d2),
            registerDigest st1 (nsArg.getD st.namespaceDefault) d2)) := by
  unfold make
  rw [h1]
  simp

/-- Unfolded form of `make` for a non-enforcing instance. -/
lemma make_noensure_eq (st : MakerState) (content : String)
    (nsArg : Option String) (stamp : String) (idLen : Option Nat)
    (h1 : st.ensure = false) :
    make st content nsArg stamp idLen =
      (.ok (formatId (nsArg.getD st.namespaceDefault)
          (blake2bHex (hashInput stamp content) (idLen.getD st.idLength))),
        st) := by
  unfold make
  rw [h1]
  simp

/-- Looking a key up in an association list after updating the values of
the entries with key `k`: other keys are unaffected, `k`'s value is
mapped. -/
lemma lookup_map_keyupd {β : Type _} (g : β → β) (k : String) :
    ∀ (l : List (String × β)) (ns : String),
    (l.map fun q => if q.1 = k then (q.1, g q.2) else q).lookup ns =
      if ns = k then (l.lookup ns).map g else l.lookup ns := by
  intro l
  induction l with
  | nil =>
    intro ns
    simp
  | cons p t ih =>
    intro ns
    obtain ⟨pk, pv⟩ := p
    simp only [List.map_cons]
    by_cases hpk : pk = k
    · subst hpk
      by_cases hns : ns = pk
      · subst hns
        simp [List.lookup_cons]
      · have h1 : (ns == pk) = false := beq_false_of_ne hns
        simp [List.lookup_cons, h1, hns, ih ns]
    · simp only [if_neg hpk]
      by_cases hns : ns = pk
      · subst hns
        have h2 : ¬ ns = k := hpk
        simp [List.lookup_cons, h2]
      · have h1 : (ns == pk) = false := beq_false_of_ne hns
        have h3 : (k == pk) = false := beq_false_of_ne fun he => hpk he.symm
        simp [List.lookup_cons, h1, h3, ih ns]

/-- Cache lookups after `Maker._register`: registering a digest into
namespace `ns` only touches the set cached for `ns`, where it appends
the digest when absent. -/
lemma registerDigest_lookup (st : MakerState) (ns d ns0 : String) :
    (registerDigest st ns d).registry.lookup ns0 =
      if ns0 = ns then
        (st.registry.lookup ns0).map fun r => if d ∈ r then r else r ++ [d]
      else st.registry.lookup ns0 :=
  lookup_map_keyupd (fun r => if d ∈ r then r else r ++ [d]) ns
    st.registry ns0

/-- The flush loop of `Maker.__del__` never touches the backing file of
a namespace whose dirty flag is not set, and writes no backup for it. -/
lemma teardown_fold_untouched (st : MakerState) (ns : String)
    (hd : st.dirty.lookup ns ≠ some true) :
    ∀ (items : List (String × List String))
      (fsacc bacc : List (String × String)),
    (∀ b ∈ bacc, b.1 ≠ ns) →
    (items.foldl (teardownStep st) (fsacc, bacc)).1.lookup ns =
        fsacc.lookup ns ∧
      ∀ b ∈ (items.foldl (teardownStep st) (fsacc, bacc)).2, b.1 ≠ ns := by
  intro items
  induction items with
  | nil =>
    intro fsacc bacc hb
    exact ⟨rfl, hb⟩
  | cons p t ih =>
    intro fsacc bacc hb
    rw [List.foldl_cons]
    cases hcase : st.dirty.lookup p.1 with
    | none =>
      have hstep : teardownStep st (fsacc, bacc) p = (fsacc, bacc) := by
        unfold teardownStep
        rw [hcase]
      rw [hstep]
      exact ih fsacc bacc hb
    | some flag =>
      cases flag with
      | false =>
        have hstep : teardownStep st (fsacc, bacc) p = (fsacc, bacc) := by
          unfold teardownStep
          rw [hcase]
        rw [hstep]
        exact ih fsacc bacc hb
      | true =>
        have hne : ns ≠ p.1 := fun he => hd (he ▸ hcase)
        have hstep : teardownStep st (fsacc, bacc) p =
            (fsacc.map fun q => if q.1 = p.1 then (q.1, joinNL p.2) else q,
             bacc ++ [(p.1, ((fsacc.lookup p.1).getD ""))]) := by
          unfold teardownStep
          rw [hcase]
        rw [hstep]
        have h1 : ((fsacc.map fun q =>
            if q.1 = p.1 then (q.1, joinNL p.2) else q).lookup ns) =
            fsacc.lookup ns := by
          have := lookup_map_keyupd (fun _ => joinNL p.2) p.1 fsacc ns
          rwa [if_neg hne] at this
        have hb2 : ∀ b ∈ bacc ++ [(p.1, ((fsacc.lookup p.1).getD ""))],
            b.1 ≠ ns := by
          intro b hbmem
          rcases List.mem_append.mp hbmem with hmem | hmem
          · exact hb b hmem
          · obtain rfl : b = (p.1, ((fsacc.lookup p.1).getD "")) := by
              simpa using hmem
            exact Ne.symm hne
        obtain ⟨ih1, ih2⟩ := ih _ _ hb2
        exact ⟨by rw [ih1, h1], ih2⟩

/-! ## Claim theorems -/

/-- C4: the hashing/formatting algorithm (ISO timestamp bytes before
content bytes, hashed to `id_length` bytes, lowercase hex of
`2 * id_length` characters, with a leading slash) matches the reference
outputs: with enforcement disabled and timestamp
`2017-10-21T06:47:18.153304`, `make(content='')` at the default length 3
returns `/8c2dcb`, and at length 17 returns
`/c73b80d0146d6d03679c3077f9f05129db`, whose digest portion has exactly
34 lowercase-hex characters (total string length 35). -/
theorem make_reference_outputs :
    (make makerDisabled "" none WHEN none).1 = .ok "/8c2dcb" ∧
    (make makerDisabled "" none WHEN (some 17)).1 =
      .ok "/c73b80d0146d6d03679c3077f9f05129db" ∧
    (blake2bHex (hashInput WHEN "") 17).length = 34 ∧
    ((blake2bHex (hashInput WHEN "") 17).data.all
      fun c => c ∈ "0123456789abcdef".data) = true ∧
    ("/c73b80d0146d6d03679c3077f9f05129db" : String).length = 35 :=
  ⟨by decide, by decide, by decide, by decide, by decide⟩

/-- C9: with uniqueness enforcement disabled, `make` is deterministic:
the call leaves the instance state unchanged, and a second call with the
identical `(content, namespace, timestamp, id_length)` arguments returns
the identical identifier string. -/
theorem make_deterministic_without_enforcement (st : MakerState)
    (h : st.ensure = false) (content : String) (nsArg : Option String)
    (stamp : String) (idLen : Option Nat) :
    (make st content nsArg stamp idLen).2 = st ∧
    (make ((make st content nsArg stamp idLen).2) content nsArg stamp
        idLen).1 =
      (make st content nsArg stamp idLen).1 := by
  unfold make
  simp [h]

/-- Closed instance of `make_deterministic_without_enforcement`. -/
theorem make_deterministic_without_enforcement_witness :
    makerDisabled.ensure = false ∧
    ((make makerDisabled "x" none "t" none).2 = makerDisabled ∧
      (make ((make makerDisabled "x" none "t" none).2) "x" none "t"
          none).1 =
        (make makerDisabled "x" none "t" none).1) :=
  ⟨rfl, make_deterministic_without_enforcement makerDisabled rfl "x" none
    "t" none⟩

/-- C7: when a namespace's backing file cannot be opened on first
reference, `make` fails with the registry-load error for that namespace
and the instance state is completely unchanged, so no identifier is
issued and the allocator remains usable for other namespaces exactly as
before the failed call. -/
theorem make_missing_register_file (st : MakerState) (ns : String)
    (h1 : st.ensure = true) (h2 : st.registry.lookup ns = none)
    (h3 : st.fs.lookup ns = none) (content stamp : String)
    (idLen : Option Nat) :
    make st content (some ns) stamp idLen =
      (.error (.registryLoad ns), st) := by
  unfold make loadRegister
  simp [h1, h2, h3]

/-- Closed instance of `make_missing_register_file`. -/
theorem make_missing_register_file_witness :
    makerTemptest.ensure = true ∧
    makerTemptest.registry.lookup "bogus" = none ∧
    makerTemptest.fs.lookup "bogus" = none ∧
    make makerTemptest "foo" (some "bogus") WHEN none =
      (.error (.registryLoad "bogus"), makerTemptest) :=
  ⟨rfl, rfl, rfl,
    make_missing_register_file makerTemptest "bogus" rfl rfl rfl "foo"
      WHEN none⟩

/-- C5 (divergence witness): the code does not use the wall-clock time
of the call when `date_time` is omitted.  The Python default
`date_time=datetime.now()` is evaluated once at class-definition time,
so two calls omitting the timestamp at distinct wall-clock times hash
the same frozen stamp and return the same identifier; here both calls
return the identifier derived from the frozen stamp `WHEN`, not from
their distinct call times. -/
theorem make_default_timestamp_frozen :
    (∀ (defStamp : String) (st : MakerState) (content : String)
        (nsArg : Option String) (idLen : Option Nat) (now1 now2 : String),
        makeOmittingTimestamp defStamp st content nsArg now1 idLen =
          makeOmittingTimestamp defStamp st content nsArg now2 idLen) ∧
    ("2020-01-01T00:00:00.000001" : String) ≠
      "2021-02-02T00:00:00.000002" ∧
    (makeOmittingTimestamp WHEN makerDisabled "" none
        "2020-01-01T00:00:00.000001" none).1 = .ok "/8c2dcb" ∧
    (makeOmittingTimestamp WHEN makerDisabled "" none
        "2021-02-02T00:00:00.000002" none).1 = .ok "/8c2dcb" :=
  ⟨fun _ _ _ _ _ _ _ => rfl, by decide, by decide, by decide⟩

/-- C1: when the initially computed digest already collides, `make`
increments the digest byte-length by one, recomputes the hash over the
same input, and retries the membership test (general step law for the
collision loop while `tries < MAX_TRIES`); in particular, with the
`temptest` registry pre-seeded so that the 3-byte digest of
`(content='foo', timestamp=WHEN)` collides, `make` returns
`/temptest/ee950528`, whose digest was absent from the registry's
pre-call contents and is present in the namespace's set after the
call. -/
theorem make_collision_extends_digest :
    (∀ (r : List String) (data : List Nat) (length : Nat)
        (digest : String) (tries : Nat),
        digest ∈ r → tries < MAX_TRIES →
        findUnique r data length digest tries =
          findUnique r data (length + 1) (blake2bHex data (length + 1))
            (tries + 1)) ∧
    (make makerTemptest "foo" (some "temptest") WHEN none).1 =
      .ok "/temptest/ee950528" ∧
    "ee950528" ∉ (pySplitlines "46ee55").dedup ∧
    "ee950528" ∈
      (((make makerTemptest "foo" (some "temptest") WHEN
          none).2.registry.lookup "temptest").getD []) := by
  refine ⟨?_, by decide, by decide, by decide⟩
  intro r data length digest tries hmem hlt
  unfold findUnique
  have h1 : MAX_TRIES + 1 - tries = (MAX_TRIES - tries) + 1 := by
    unfold MAX_TRIES at hlt ⊢
    omega
  have h2 : MAX_TRIES + 1 - (tries + 1) = MAX_TRIES - tries := by
    unfold MAX_TRIES at hlt ⊢
    omega
  rw [h1, h2]
  conv_lhs => rw [findUniqueAux.eq_def]
  simp only [if_pos hmem, if_neg (Nat.not_le.mpr hlt)]

/-- Closed instance of the step law of `make_collision_extends_digest`. -/
theorem make_collision_extends_digest_witness :
    ("aa" ∈ (["aa"] : List String)) ∧ 0 < MAX_TRIES ∧
    findUnique ["aa"] [] 1 "aa" 0 =
      findUnique ["aa"] [] 2 (blake2bHex [] 2) 1 :=
  ⟨by decide, by decide,
    make_collision_extends_digest.1 ["aa"] [] 1 "aa" 0 (by decide)
      (by decide)⟩

/-- C2: if every collision-extension attempt up to the `MAX_TRIES` bound
still collides (the register contains the digest of the hash input at
the starting length and at each of the `MAX_TRIES` extended lengths),
`make` fails with the exhausted-retries error that propagates to the
caller; no identifier is returned, the namespace's registry set stays
exactly the loaded set, and no namespace is marked dirty. -/
theorem make_exhausted_retries (st : MakerState) (ns content stamp : String)
    (idLen : Option Nat) (r : List String) (st1 : MakerState)
    (h1 : st.ensure = true)
    (hload : loadRegister st ns = .ok (r, st1))
    (hcoll : ∀ k, k ≤ MAX_TRIES →
      blake2bHex (hashInput stamp content) (idLen.getD st.idLength + k) ∈ r) :
    make st content (some ns) stamp idLen =
      (.error (.exhaustedRetries MAX_TRIES), st1) ∧
    st1.registry.lookup ns = some r ∧ st1.dirty = st.dirty := by
  have hfacts := loadRegister_ok hload
  refine ⟨?_, hfacts.1, hfacts.2.1⟩
  rw [make_ensure_eq st content (some ns) stamp idLen h1]
  simp only [Option.getD_some]
  rw [hload]
  have hfu : findUnique r (hashInput stamp content) (idLen.getD st.idLength)
      (blake2bHex (hashInput stamp content) (idLen.getD st.idLength)) 0 =
      .error (.exhaustedRetries MAX_TRIES) := by
    unfold findUnique
    refine findUniqueAux_exhausts (MAX_TRIES + 1 - 0) 0
      (idLen.getD st.idLength)
      (blake2bHex (hashInput stamp content) (idLen.getD st.idLength))
      (by omega) (Nat.zero_le _) ?_ ?_
    · have := hcoll 0 (Nat.zero_le _)
      rwa [Nat.add_zero] at this
    · intro k hk1 hk2
      exact hcoll k (by omega)
  simp only [hfu]

/-- Closed instance of `make_exhausted_retries`. -/
theorem make_exhausted_retries_witness :
    makerExhaust.ensure = true ∧
    loadRegister makerExhaust "full" = .ok (collisionSet, makerExhaust) ∧
    (∀ k, k ≤ MAX_TRIES →
      blake2bHex (hashInput WHEN "foo") (3 + k) ∈ collisionSet) ∧
    (make makerExhaust "foo" (some "full") WHEN none =
        (.error (.exhaustedRetries MAX_TRIES), makerExhaust) ∧
      makerExhaust.registry.lookup "full" = some collisionSet ∧
      makerExhaust.dirty = makerExhaust.dirty) := by
  have hc : ∀ k, k ≤ MAX_TRIES →
      blake2bHex (hashInput WHEN "foo") (3 + k) ∈ collisionSet := by decide
  exact ⟨rfl, rfl, hc,
    make_exhausted_retries makerExhaust "full" "foo" WHEN none collisionSet
      makerExhaust rfl rfl hc⟩

/-- C8: at allocator teardown, a namespace's registry file is rewritten
only if that namespace was marked dirty during the session: a namespace
that was loaded but never had a new digest registered keeps its on-disk
registry file unchanged and gets no backup file. -/
theorem teardown_skips_clean_namespaces (st : MakerState) (ns : String)
    (v : List String) (_hloaded : st.registry.lookup ns = some v)
    (hdirty : st.dirty.lookup ns ≠ some true) :
    (teardown st).1.lookup ns = st.fs.lookup ns ∧
    ∀ b ∈ (teardown st).2, b.1 ≠ ns := by
  unfold teardown
  by_cases he : st.ensure
  · rw [if_pos he]
    exact teardown_fold_untouched st ns hdirty st.registry st.fs []
      (by simp)
  · rw [if_neg he]
    exact ⟨rfl, by simp⟩

/-- Closed instance of `teardown_skips_clean_namespaces`. -/
theorem teardown_skips_clean_namespaces_witness :
    makerClean.registry.lookup "a" = some ["x"] ∧
    makerClean.dirty.lookup "a" ≠ some true ∧
    ((teardown makerClean).1.lookup "a" = makerClean.fs.lookup "a" ∧
      ∀ b ∈ (teardown makerClean).2, b.1 ≠ "a") :=
  ⟨by decide, by decide,
    teardown_skips_clean_namespaces makerClean "a" ["x"] (by decide)
      (by decide)⟩


/-- Splitting always yields at least one fragment. -/
lemma splitNL_ne_nil (l : List Char) : splitNL l ≠ [] := by
  cases l with
  | nil => simp [splitNL]
  | cons c cs =>
    unfold splitNL
    by_cases hc : c = '\n'
    · simp [hc]
    · simp only [if_neg hc]
      cases splitNL cs <;> simp

/-- A single-fragment split means the fragment is the whole input. -/
lemma splitNL_eq_singleton : ∀ {l x : List Char}, splitNL l = [x] → x = l := by
  intro l
  induction l with
  | nil =>
    intro x h
    simp [splitNL] at h
    exact h
  | cons c cs ih =>
    intro x h
    unfold splitNL at h
    by_cases hc : c = '\n'
    · rw [if_pos hc] at h
      simp at h
      exact absurd h.2 (splitNL_ne_nil cs)
    · rw [if_neg hc] at h
      cases hs : splitNL cs with
      | nil => exact absurd hs (splitNL_ne_nil cs)
      | cons l0 ls =>
        rw [hs] at h
        simp at h
        obtain ⟨h1, h2⟩ := h
        subst h2
        rw [← h1, ih hs]

/-- The final fragment of a split is empty exactly when the input is
empty or ends with a newline. -/
lemma splitNL_getLast_empty : ∀ l : List Char,
    ((splitNL l).getLast? = some [] ↔ l = [] ∨ l.getLast? = some '\n') := by
  intro l
  induction l with
  | nil => simp [splitNL]
  | cons c cs ih =>
    unfold splitNL
    by_cases hc : c = '\n'
    · rw [if_pos hc]
      cases hs : splitNL cs with
      | nil => exact absurd hs (splitNL_ne_nil cs)
      | cons l0 ls =>
        rw [List.getLast?_cons_cons]
        rw [← hs, ih]
        cases cs with
        | nil => simp [hc]
        | cons d ds => simp [List.getLast?_cons_cons]
    · rw [if_neg hc]
      cases hs : splitNL cs with
      | nil => exact absurd hs (splitNL_ne_nil cs)
      | cons l0 ls =>
        cases ls with
        | nil =>
          have hl0 : l0 = cs := splitNL_eq_singleton hs
          subst hl0
          simp only [List.getLast?_singleton]
          constructor
          · intro hfalse
            simp at hfalse
          · intro hr
            rcases hr with hr | hr
            · simp at hr
            · -- (c :: l0).getLast? = some '\n' with splitNL l0 = [l0]... need contradiction
              exfalso
              cases heq : l0 with
              | nil =>
                subst heq
                simp at hr
                exact hc hr
              | cons d ds =>
                subst heq
                rw [List.getLast?_cons_cons] at hr
                have := (ih.mpr (Or.inr hr))
                rw [hs] at this
                simp at this
        | cons b bs =>
          rw [List.getLast?_cons_cons]
          have hlhs : (b :: bs).getLast? = (splitNL cs).getLast? := by
            rw [hs, List.getLast?_cons_cons]
          rw [hlhs, ih]
          have hcsne : cs ≠ [] := by
            intro hnil
            rw [hnil] at hs
            simp [splitNL] at hs
          cases cs with
          | nil => exact absurd rfl hcsne
          | cons d ds =>
            simp [List.getLast?_cons_cons]


/-- Splitting newline-free input yields that input as the only
fragment. -/
lemma splitNL_no_nl : ∀ l : List Char, '\n' ∉ l → splitNL l = [l] := by
  intro l
  induction l with
  | nil => intro _; rfl
  | cons c cs ih =>
    intro h
    have hc : c ≠ '\n' := fun he => h (he ▸ List.mem_cons_self c cs)
    unfold splitNL
    rw [if_neg hc, ih (fun hm => h (List.mem_cons_of_mem c hm))]

/-- Splitting peels off a leading newline-free fragment before a
newline. -/
lemma splitNL_append_nl : ∀ (x rest : List Char), '\n' ∉ x →
    splitNL (x ++ '\n' :: rest) = x :: splitNL rest := by
  intro x
  induction x with
  | nil =>
    intro rest _
    simp [splitNL]
  | cons c cs ih =>
    intro rest h
    have hc : c ≠ '\n' := fun he => h (he ▸ List.mem_cons_self c cs)
    show splitNL (c :: (cs ++ '\n' :: rest)) = (c :: cs) :: splitNL rest
    conv_lhs => unfold splitNL
    rw [if_neg hc, ih rest (fun hm => h (List.mem_cons_of_mem c hm))]

/-- Character-level unfolding of `joinNL` on a list of two or more
strings. -/
lemma joinNL_data_cons (x y : String) (t : List String) :
    (joinNL (x :: y :: t)).data = x.data ++ '\n' :: (joinNL (y :: t)).data := by
  show (x ++ "\n" ++ joinNL (y :: t)).data = _
  rw [String.data_append, String.data_append]
  simp

/-- Splitting the newline-join of newline-free strings recovers the
strings. -/
lemma splitNL_joinNL : ∀ (v : List String), v ≠ [] →
    (∀ x ∈ v, '\n' ∉ x.data) →
    splitNL (joinNL v).data = v.map String.data := by
  intro v
  induction v with
  | nil => intro h _; exact absurd rfl h
  | cons x t ih =>
    intro _ hx
    cases t with
    | nil =>
      exact splitNL_no_nl x.data (hx x (List.mem_cons_self x []))
    | cons y t2 =>
      rw [joinNL_data_cons]
      rw [splitNL_append_nl _ _ (hx x (List.mem_cons_self x _))]
      rw [ih (by simp) (fun z hz => hx z (List.mem_cons_of_mem x hz))]
      rfl

/-- Round trip between a string and its character list. -/
lemma asString_data (x : String) : x.data.asString = x := by
  cases x
  rfl

/-- Python `'\n'.join` followed by `str.splitlines` is the identity on
lists of non-empty newline-free strings. -/
lemma pySplitlines_joinNL (v : List String)
    (hv : ∀ x ∈ v, x ≠ "" ∧ '\n' ∉ x.data) :
    pySplitlines (joinNL v) = v := by
  cases hv0 : v with
  | nil => decide
  | cons x t =>
    subst hv0
    unfold pySplitlines
    rw [splitNL_joinNL (x :: t) (by simp) (fun z hz => (hv z hz).2)]
    have hparts : ((x :: t).map String.data).map List.asString = x :: t := by
      rw [List.map_map]
      have : (List.asString ∘ String.data) = id := funext asString_data
      rw [this, List.map_id]
    rw [hparts]
    have hne : (x :: t) ≠ ([] : List String) := by simp
    have hlast : (x :: t).getLast? = some ((x :: t).getLast hne) :=
      List.getLast?_eq_getLast _ hne
    have hmem := List.getLast_mem hne
    have hnee : (x :: t).getLast hne ≠ "" := (hv _ hmem).1
    simp [hlast, hnee]


/-- C6 (amended): loading a namespace's registry file builds the
in-memory set from the file's newline-separated fragments, excluding
only the final empty fragment that arises when the content is empty or
ends with a newline; interior blank lines are retained as empty-string
members, so the set need not consist of non-empty lines only. -/
theorem load_register_line_set (st : MakerState) (ns txt : String)
    (r : List String) (st2 : MakerState)
    (hfile : st.fs.lookup ns = some txt)
    (hcache : st.registry.lookup ns = none)
    (hok : loadRegister st ns = .ok (r, st2)) :
    ∀ d, d ∈ r ↔
      d ∈ (if txt = "" ∨ txt.data.getLast? = some '\n'
        then ((splitNL txt.data).map List.asString).dropLast
        else (splitNL txt.data).map List.asString) := by
  rcases loadRegister_cases hok with ⟨hc, _⟩ | ⟨_, txt2, hf2, hr, _⟩
  · rw [hcache] at hc
    exact absurd hc (by simp)
  · rw [hfile] at hf2
    have htxteq : txt2 = txt := Option.some.inj hf2.symm
    rw [htxteq] at hr
    subst hr
    intro d
    rw [List.mem_dedup]
    unfold pySplitlines
    have hcond : (((splitNL txt.data).map List.asString).getLast? = some "")
        ↔ (txt = "" ∨ txt.data.getLast? = some '\n') := by
      rw [List.getLast?_map]
      constructor
      · intro h
        cases hg : (splitNL txt.data).getLast? with
        | none => rw [hg] at h; simp at h
        | some x =>
          rw [hg] at h
          simp at h
          have hx : x = [] := by
            have h2 : x.asString.data = ("" : String).data := by rw [h]
            simpa using h2
          rw [hx] at hg
          rcases (splitNL_getLast_empty txt.data).mp hg with h3 | h3
          · refine Or.inl ?_
            cases txt with
            | mk l => exact congrArg String.mk h3
          · exact Or.inr h3
      · intro h
        rcases h with h | h
        · subst h
          rfl
        · rw [(splitNL_getLast_empty txt.data).mpr (Or.inr h)]
          rfl
    by_cases hc2 : txt = "" ∨ txt.data.getLast? = some '\n'
    · rw [if_pos hc2, if_pos (hcond.mpr hc2)]
    · rw [if_neg hc2, if_neg (fun hcc => hc2 (hcond.mp hcc))]

/-- Unfolded form of a first-touch registry load. -/
lemma loadRegister_fresh_eq (st : MakerState) (ns txt : String)
    (hcache : st.registry.lookup ns = none)
    (hfile : st.fs.lookup ns = some txt) :
    loadRegister st ns = .ok ((pySplitlines txt).dedup,
      { st with registry := (ns, (pySplitlines txt).dedup) :: st.registry }) := by
  unfold loadRegister
  rw [hcache, hfile]

/-- C10: flush/load round trip: at teardown a dirty namespace's file is
overwritten with the newline-join of its in-memory set, and loading a
file holding the newline-join of a duplicate-free list of non-empty
newline-free digests yields back exactly that set. -/
theorem flush_load_roundtrip :
    (∀ (ns old : String) (v : List String),
      (teardown ⟨true, "", 3, [(ns, old)], [(ns, v)],
          [(ns, true)]⟩).1.lookup ns = some (joinNL v)) ∧
    (∀ (st : MakerState) (ns : String) (v : List String),
      (∀ x ∈ v, x ≠ "" ∧ '\n' ∉ x.data) → v.Nodup →
      st.registry.lookup ns = none → st.fs.lookup ns = some (joinNL v) →
      (loadRegister st ns).toOption.map Prod.fst = some v) := by
  constructor
  · intro ns old v
    simp [teardown, teardownStep, List.lookup_cons]
  · intro st ns v helems hnodup hcache hfile
    have hps : (pySplitlines (joinNL v)).dedup = v := by
      rw [pySplitlines_joinNL v helems]
      exact List.dedup_eq_self.mpr hnodup
    rw [loadRegister_fresh_eq st ns (joinNL v) hcache hfile, hps]
    rfl

/-- C6 (counterexample to the claim as stated): the file content
`"a\n\n"` has `a` as its only non-empty line, yet the loaded set is
`{a, empty}`: the blank interior line is a member, so blank lines are
not excluded from the set. -/
theorem load_register_keeps_blank_lines :
    (loadRegister makerBlankLine "n").toOption.map Prod.fst =
      some ["a", ""] ∧
    "" ∈ (((loadRegister makerBlankLine "n").toOption.map Prod.fst).getD
      []) :=
  ⟨by decide, by decide⟩

/-- Closed instance of `load_register_line_set`. -/
theorem load_register_line_set_witness :
    makerBlankLine.fs.lookup "n" = some "a\n\n" ∧
    makerBlankLine.registry.lookup "n" = none ∧
    (∀ d, d ∈ (["a", ""] : List String) ↔
      d ∈ (if ("a\n\n" : String) = "" ∨
          ("a\n\n" : String).data.getLast? = some '\n'
        then ((splitNL ("a\n\n" : String).data).map List.asString).dropLast
        else (splitNL ("a\n\n" : String).data).map List.asString)) := by
  have hok : loadRegister makerBlankLine "n" = .ok (["a", ""],
      { makerBlankLine with registry := [("n", ["a", ""])] }) := by decide
  exact ⟨by decide, by decide,
    load_register_line_set makerBlankLine "n" "a\n\n" ["a", ""] _
      (by decide) (by decide) hok⟩

/-- Closed instance of `flush_load_roundtrip`. -/
theorem flush_load_roundtrip_witness :
    (teardown ⟨true, "", 3, [("n", "o")], [("n", ["a", "b"])],
        [("n", true)]⟩).1.lookup "n" = some (joinNL ["a", "b"]) ∧
    (∀ x ∈ (["a", "b"] : List String), x ≠ "" ∧ '\n' ∉ x.data) ∧
    (["a", "b"] : List String).Nodup ∧
    (loadRegister ⟨true, "", 3, [("n", joinNL ["a", "b"])], [], []⟩
        "n").toOption.map Prod.fst = some ["a", "b"] :=
  ⟨flush_load_roundtrip.1 "n" "o" ["a", "b"], by decide, by decide,
    flush_load_roundtrip.2 ⟨true, "", 3, [("n", joinNL ["a", "b"])], [], []⟩
      "n" ["a", "b"] (by decide) (by decide) (by decide) (by decide)⟩

/-- Identifier formatting is injective in the digest for a fixed
namespace. -/
lemma formatId_inj (ns : String) {d1 d2 : String}
    (h : formatId ns d1 = formatId ns d2) : d1 = d2 := by
  unfold formatId at h
  by_cases hns : ns ≠ ""
  · rw [if_pos hns, if_pos hns] at h
    have hd := congrArg String.data h
    rw [String.data_append, String.data_append] at hd
    have h2 : d1.data = d2.data := List.append_cancel_left hd
    exact congrArg String.mk h2
  · rw [if_neg hns, if_neg hns] at h
    have hd := congrArg String.data h
    rw [String.data_append, String.data_append] at hd
    have h2 : d1.data = d2.data := List.append_cancel_left hd
    exact congrArg String.mk h2

/-- The collision loop only returns a digest absent from the
register. -/
lemma findUnique_ok_not_mem {r : List String} {data : List Nat}
    {length tries : Nat} {digest d : String}
    (h : findUnique r data length digest tries = .ok d) : d ∉ r := by
  unfold findUnique at h
  exact findUniqueAux_ok_not_mem h


/-- A registry load preserves the session invariant: a freshly cached
set is exactly the file's lines, and nothing has been issued yet for a
namespace that was uncached. -/
lemma loadRegister_inv (fs issued : List (String × String))
    (st : MakerState) (ns : String) (r : List String) (st1 : MakerState)
    (hfs : st.fs = fs) (hinv : RegInv fs issued st)
    (hload : loadRegister st ns = .ok (r, st1)) :
    RegInv fs issued st1 := by
  rcases loadRegister_cases hload with ⟨hcached, rfl⟩ | ⟨hnone, txt, hf, hrdef, rfl⟩
  · exact hinv
  · constructor
    · intro ns0 r0 hlook
      simp only [List.lookup_cons] at hlook
      by_cases hns0 : ns0 = ns
      · have hbeq : (ns0 == ns) = true := beq_iff_eq.mpr hns0
        rw [hbeq] at hlook
        simp at hlook
        subst hns0
        refine ⟨txt, hfs ▸ hf, fun d => ?_⟩
        constructor
        · intro hd
          rw [← hlook, hrdef] at hd
          exact Or.inl (List.mem_dedup.mp hd)
        · intro hd
          rcases hd with hd | hd
          · rw [← hlook, hrdef]
            exact List.mem_dedup.mpr hd
          · exact absurd hd (hinv.2 ns0 hnone _)
      · have hbeq : (ns0 == ns) = false := beq_false_of_ne hns0
        rw [hbeq] at hlook
        simp at hlook
        exact hinv.1 ns0 r0 hlook
    · intro ns0 hlook
      simp only [List.lookup_cons] at hlook
      by_cases hns0 : ns0 = ns
      · have hbeq : (ns0 == ns) = true := beq_iff_eq.mpr hns0
        rw [hbeq] at hlook
        simp at hlook
      · have hbeq : (ns0 == ns) = false := beq_false_of_ne hns0
        rw [hbeq] at hlook
        simp only [Bool.false_eq_true, if_false] at hlook
        exact hinv.2 ns0 hlook


/-- Registering the digest of a newly issued identifier preserves the
session invariant with that identifier appended to the issue log. -/
lemma register_inv (fs issued : List (String × String))
    (st1 : MakerState) (ns : String) (r : List String) (d2 : String)
    (hinv : RegInv fs issued st1)
    (hlook : st1.registry.lookup ns = some r)
    (hd2 : d2 ∉ r) :
    RegInv fs (issued ++ [(ns, formatId ns d2)]) (registerDigest st1 ns d2) := by
  constructor
  · intro ns0 r0 hlook0
    rw [registerDigest_lookup] at hlook0
    by_cases hns0 : ns0 = ns
    · subst hns0
      rw [if_pos rfl, hlook] at hlook0
      simp only [Option.map_some'] at hlook0
      rw [if_neg hd2] at hlook0
      obtain rfl : r ++ [d2] = r0 := by simpa using hlook0
      obtain ⟨txt, htxt, hiff⟩ := hinv.1 ns0 r hlook
      refine ⟨txt, htxt, fun d => ?_⟩
      rw [List.mem_append, List.mem_singleton, hiff d, List.mem_append,
        List.mem_singleton]
      constructor
      · rintro ((hl | hl) | rfl)
        · exact Or.inl hl
        · exact Or.inr (Or.inl hl)
        · exact Or.inr (Or.inr rfl)
      · rintro (hl | (hl | heq))
        · exact Or.inl (Or.inl hl)
        · exact Or.inl (Or.inr hl)
        · have : d = d2 := formatId_inj ns0 (congrArg Prod.snd heq)
          exact Or.inr this
    · rw [if_neg hns0] at hlook0
      obtain ⟨txt, htxt, hiff⟩ := hinv.1 ns0 r0 hlook0
      refine ⟨txt, htxt, fun d => ?_⟩
      rw [hiff d, List.mem_append, List.mem_singleton]
      constructor
      · rintro (hl | hl)
        · exact Or.inl hl
        · exact Or.inr (Or.inl hl)
      · rintro (hl | (hl | heq))
        · exact Or.inl hl
        · exact Or.inr hl
        · exact absurd (congrArg Prod.fst heq) hns0
  · intro ns0 hlook0 s hmem
    rw [registerDigest_lookup] at hlook0
    by_cases hns0 : ns0 = ns
    · subst hns0
      rw [if_pos rfl, hlook] at hlook0
      simp at hlook0
    · rw [if_neg hns0] at hlook0
      rcases List.mem_append.mp hmem with hm | hm
      · exact hinv.2 ns0 hlook0 s hm
      · rw [List.mem_singleton] at hm
        exact hns0 (congrArg Prod.fst hm)


/-- One `make` call preserves the session invariant, extending the
issue log with the returned identifier exactly when the call
succeeds. -/
lemma make_step_inv (fs issued : List (String × String))
    (st : MakerState) (c : MakeCall)
    (hens : st.ensure = true) (hfs : st.fs = fs)
    (hinv : RegInv fs issued st) :
    RegInv fs (issued ++ issueOf st c)
        (make st c.content c.nsArg c.stamp c.idLen).2 ∧
      (make st c.content c.nsArg c.stamp c.idLen).2.fs = fs ∧
      (make st c.content c.nsArg c.stamp c.idLen).2.ensure = true := by
  have hme := make_ensure_eq st c.content c.nsArg c.stamp c.idLen hens
  cases hload : loadRegister st (c.nsArg.getD st.namespaceDefault) with
  | error e =>
    rw [hload] at hme
    simp only at hme
    have hio : issueOf st c = [] := by
      unfold issueOf
      rw [hme]
    rw [hio, List.append_nil, hme]
    exact ⟨hinv, hfs, hens⟩
  | ok pair =>
    obtain ⟨r, st1⟩ := pair
    have hlr := loadRegister_ok hload
    have hinv1 : RegInv fs issued st1 :=
      loadRegister_inv fs issued st _ r st1 hfs hinv hload
    rw [hload] at hme
    cases hfu : findUnique r (hashInput c.stamp c.content)
        (c.idLen.getD st.idLength)
        (blake2bHex (hashInput c.stamp c.content) (c.idLen.getD st.idLength))
        0 with
    | error e =>
      simp only [hfu] at hme
      have hio : issueOf st c = [] := by
        unfold issueOf
        rw [hme]
      rw [hio, List.append_nil, hme]
      exact ⟨hinv1, hlr.2.2.1.trans hfs, hlr.2.2.2.1.trans hens⟩
    | ok d2 =>
      simp only [hfu] at hme
      have hio : issueOf st c =
          [(c.nsArg.getD st.namespaceDefault,
            formatId (c.nsArg.getD st.namespaceDefault) d2)] := by
        unfold issueOf
        rw [hme]
      have hd2 : d2 ∉ r := findUnique_ok_not_mem hfu
      rw [hio, hme]
      exact ⟨register_inv fs issued st1 _ r d2 hinv1 hlr.1 hd2,
        hlr.2.2.1.trans hfs, hlr.2.2.2.1.trans hens⟩


/-- The session invariant is preserved by any sequence of `make`
calls. -/
lemma runSession_inv (fs : List (String × String)) :
    ∀ (ops : List MakeCall) (st : MakerState)
      (issued : List (String × String)),
    st.ensure = true → st.fs = fs → RegInv fs issued st →
    RegInv fs (issued ++ (runSession st ops).2) (runSession st ops).1 ∧
      (runSession st ops).1.fs = fs := by
  intro ops
  induction ops with
  | nil =>
    intro st issued h1 h2 h3
    show RegInv fs (issued ++ []) st ∧ st.fs = fs
    rw [List.append_nil]
    exact ⟨h3, h2⟩
  | cons c cs ih =>
    intro st issued h1 h2 h3
    obtain ⟨hstep, hfs2, hens2⟩ := make_step_inv fs issued st c h1 h2 h3
    have hrest := ih (make st c.content c.nsArg c.stamp c.idLen).2
      (issued ++ issueOf st c) hens2 hfs2 hstep
    show RegInv fs
        (issued ++ (issueOf st c ++
          (runSession (make st c.content c.nsArg c.stamp c.idLen).2 cs).2))
        (runSession (make st c.content c.nsArg c.stamp c.idLen).2 cs).1 ∧
      (runSession (make st c.content c.nsArg c.stamp c.idLen).2 cs).1.fs = fs
    rw [← List.append_assoc]
    exact hrest

/-- C3: invariant of an enforcement-enabled allocator session started
with an empty cache: a digest is a member of a namespace's in-memory
registry set exactly when it is a line of that namespace's backing file
as loaded, or an identifier formatted from it was returned by a
successful `make` call for that namespace during the session. -/
theorem session_registry_invariant (fs : List (String × String))
    (nsd : String) (idl : Nat) (ops : List MakeCall) :
    ∀ ns r,
    (runSession ⟨true, nsd, idl, fs, [], []⟩ ops).1.registry.lookup ns =
      some r →
    ∃ txt, fs.lookup ns = some txt ∧
      ∀ d, d ∈ r ↔ d ∈ pySplitlines txt ∨
        (ns, formatId ns d) ∈ (runSession ⟨true, nsd, idl, fs, [], []⟩ ops).2 := by
  intro ns r hlook
  have hinv0 : RegInv fs [] ⟨true, nsd, idl, fs, [], []⟩ := by
    constructor
    · intro ns0 r0 h0
      simp at h0
    · intro ns0 h0 s hmem
      simp at hmem
  obtain ⟨hinv, _⟩ := runSession_inv fs ops ⟨true, nsd, idl, fs, [], []⟩ []
    rfl rfl hinv0
  obtain ⟨txt, htxt, hiff⟩ := hinv.1 ns r hlook
  refine ⟨txt, htxt, fun d => ?_⟩
  rw [hiff d]
  rw [List.nil_append]


/-- Closed instance of `session_registry_invariant`. -/
theorem session_registry_invariant_witness :
    ((runSession ⟨true, "", 3, [("", "aa")], [], []⟩
        [⟨"", none, "t", none⟩]).1.registry.lookup "" =
      some (((runSession ⟨true, "", 3, [("", "aa")], [], []⟩
        [⟨"", none, "t", none⟩]).1.registry.lookup "").getD [])) ∧
    (∃ txt, ([("", "aa")] : List (String × String)).lookup "" = some txt ∧
      ∀ d, d ∈ (((runSession ⟨true, "", 3, [("", "aa")], [], []⟩
          [⟨"", none, "t", none⟩]).1.registry.lookup "").getD []) ↔
        d ∈ pySplitlines txt ∨
          ("", formatId "" d) ∈
            (runSession ⟨true, "", 3, [("", "aa")], [], []⟩
              [⟨"", none, "t", none⟩]).2) := by
  have h : (runSession ⟨true, "", 3, [("", "aa")], [], []⟩
      [⟨"", none, "t", none⟩]).1.registry.lookup "" =
      some (((runSession ⟨true, "", 3, [("", "aa")], [], []⟩
        [⟨"", none, "t", none⟩]).1.registry.lookup "").getD []) := by decide
  exact ⟨h, session_registry_invariant [("", "aa")] "" 3
    [⟨"", none, "t", none⟩] "" _ h⟩

end IsawId
